import Mathlib

/-!
Verification of the response-normalization pipeline of `src/server.js`.

Strings are modelled as lists of characters (`JStr`); JavaScript string
indices (UTF-16 code units) coincide with character positions for all
basic-multilingual-plane text, which covers every marker and cue used by
the program. JavaScript values that flow through the pipeline are
modelled by the inductive type `JsValue`, with `undefinedV` for `undefined`
(e.g. a missing object field) and `null` for JSON `null`. Numbers are
kept as their JSON lexemes: the pipeline never computes with them, it
only coerces them back to strings.
-/

abbrev JStr := List Char

/-- Whitespace recognised by JavaScript `trim` and by the `\s` regex class. -/
def jsWsChar (c : Char) : Bool :=
  c == ' ' || c == '\t' || c == '\n' || c == '\r' || c == '\x0b' || c == '\x0c'
  || c == '\u00a0' || c == '\u1680' || (0x2000 <= c.toNat && c.toNat <= 0x200a)
  || c == '\u2028' || c == '\u2029' || c == '\u202f' || c == '\u205f'
  || c == '\u3000' || c == '\ufeff'

/-- JavaScript `String.prototype.trim`. -/
def jsTrim (s : JStr) : JStr :=
  ((s.dropWhile jsWsChar).reverse.dropWhile jsWsChar).reverse

/-- Index of the least suffix of `s` satisfying `f`, if any.  Both
`indexOf` and the trailing-fence regex search are instances of this. -/
def leastSuffix (f : JStr → Bool) : JStr → Option Nat
  | [] => if f [] then some 0 else none
  | c :: t => if f (c :: t) then some 0 else (leastSuffix f t).map (· + 1)

/-- JavaScript `String.prototype.indexOf`: first occurrence of `needle`
in `hay`, or `-1`. -/
def jsIndexOf (hay needle : JStr) : Int :=
  match leastSuffix (fun t => needle.isPrefixOf t) hay with
  | some i => (i : Int)
  | none => -1

/-- JavaScript `String.prototype.slice` with two integer arguments. -/
def jsSliceI (s : JStr) (start stop : Int) : JStr :=
  let n : Int := s.length
  let a := (if start < 0 then max (n + start) 0 else min start n).toNat
  let b := (if stop < 0 then max (n + stop) 0 else min stop n).toNat
  (s.take b).drop a

/-- Result shape of the Marker-Based Section Splitter (`parseClaudeResponse`). -/
structure SplitResult where
  outline : JStr
  opening : JStr
deriving Repr, DecidableEq

/-- The opening marker (server.js line 70). -/
def openMarker : JStr := ("【开场白】").data

/-- The outline marker (server.js line 71). -/
def outlineMarker : JStr := ("【大纲】").data

/-- Helper `sliceSection` of `parseClaudeResponse` (server.js lines 76-81). -/
def sliceSection (text : JStr) (startIdx : Int) (markerLen : Nat) (untilIdx : Int) : JStr :=
  if startIdx = -1 then []
  else
    let start := startIdx + markerLen
    let stop := if untilIdx = -1 then (text.length : Int) else untilIdx
    jsTrim (jsSliceI text start stop)

/-- The fixed list of alternate outline-introducing cues
(server.js line 93). -/
def altMarkers : List JStr :=
  [("大纲：").data, ("## 大纲").data, ("## 内容大纲").data, ("\n- ").data, ("\n* ").data]

/-- Secondary cleanup pass over the leading segment when only the opening
marker is present (server.js lines 93-100): the first cue found, in list
order, is discarded together with everything before it. -/
def altCleanup (outline : JStr) : JStr :=
  match altMarkers.find? (fun m => jsIndexOf outline m != -1) with
  | some m => jsTrim (jsSliceI outline (jsIndexOf outline m + m.length) outline.length)
  | none => outline

/-- The Marker-Based Section Splitter, `parseClaudeResponse`
(server.js lines 69-111). -/
def parseClaudeResponse (text : JStr) : SplitResult :=
  let openIdx := jsIndexOf text openMarker
  let outlineIdx := jsIndexOf text outlineMarker
  if openIdx ≠ -1 ∧ outlineIdx ≠ -1 then
    { opening := sliceSection text openIdx openMarker.length
        (if outlineIdx > openIdx then outlineIdx else -1)
      outline := sliceSection text outlineIdx outlineMarker.length
        (if openIdx > outlineIdx then openIdx else -1) }
  else if openIdx ≠ -1 then
    { opening := sliceSection text openIdx openMarker.length (-1)
      outline := altCleanup (jsTrim (jsSliceI text 0 openIdx)) }
  else if outlineIdx ≠ -1 then
    { opening := []
      outline := sliceSection text outlineIdx outlineMarker.length (-1) }
  else
    { opening := jsTrim text
      outline := jsTrim (jsSliceI text 0 ((text.length / 2 : Nat) : Int)) }

/-- JavaScript values as seen by the pipeline: results of `JSON.parse`,
plus `undefinedV` for `undefined` (a missing field, or the absent `items`
slot, which the caller-facing record leaves out).  `num` stores the JSON
number lexeme: the pipeline never does arithmetic on numbers. -/
inductive JsValue where
  | undefinedV : JsValue
  | null : JsValue
  | bool : Bool → JsValue
  | num : JStr → JsValue
  | str : JStr → JsValue
  | arr : List JsValue → JsValue
  | obj : List (JStr × JsValue) → JsValue
deriving Repr, Inhabited

/-- JavaScript `typeof`. -/
def jsTypeof : JsValue → JStr
  | .undefinedV => ("undefined").data
  | .null => ("object").data
  | .bool _ => ("boolean").data
  | .num _ => ("number").data
  | .str _ => ("string").data
  | .arr _ => ("object").data
  | .obj _ => ("object").data

/-- Whether a JSON number lexeme denotes zero (the only falsy numbers
`JSON.parse` can produce). -/
def numIsZero (lex : JStr) : Bool :=
  let l := if lex.head? == some '-' then lex.tail else lex
  let mant := l.takeWhile (fun c => !(c == 'e' || c == 'E'))
  mant.all (fun c => c == '0' || c == '.')

/-- JavaScript truthiness. -/
def truthy : JsValue → Bool
  | .undefinedV => false
  | .null => false
  | .bool b => b
  | .num lex => !numIsZero lex
  | .str s => !s.isEmpty
  | .arr _ => true
  | .obj _ => true

/-- `v == null` under JavaScript loose equality (true exactly for
`null` and `undefined`). -/
def isNullish : JsValue → Bool
  | .null => true
  | .undefinedV => true
  | _ => false

/-- Property lookup `v[k]`: on plain objects the last binding wins (the
shape `JSON.parse` produces for duplicate keys); on every other value
the properties the pipeline asks for are absent. -/
def getField (v : JsValue) (k : JStr) : JsValue :=
  match v with
  | .obj fields =>
    match fields.reverse.find? (fun p => p.1 == k) with
    | some p => p.2
    | none => .undefinedV
  | _ => .undefinedV

/-- JavaScript nullish coalescing `a ?? b`. -/
def jsCoalesce (a b : JsValue) : JsValue :=
  if isNullish a then b else a

/-- JavaScript `Array.prototype.join` (on empty input the result is empty). -/
def jsJoin (sep : JStr) : List JStr → JStr
  | [] => []
  | [x] => x
  | x :: y :: xs => x ++ sep ++ jsJoin sep (y :: xs)

mutual

/-- JavaScript `String(v)` coercion for the values the pipeline can see. -/
def jsToString : JsValue → JStr
  | .undefinedV => ("undefined").data
  | .null => ("null").data
  | .bool true => ("true").data
  | .bool false => ("false").data
  | .num lex => lex
  | .str s => s
  | .arr xs => jsJoin (",").data (jsToStringElems xs)
  | .obj _ => ("[object Object]").data

/-- Elementwise stringification used by `Array.prototype.toString`
(`null` and `undefined` elements become empty strings). -/
def jsToStringElems : List JsValue → List JStr
  | [] => []
  | x :: xs =>
    (match x with
     | .null => []
     | .undefinedV => []
     | y => jsToString y) :: jsToStringElems xs

end

/-- The per-element text selection inside `itemsToOutline`
(server.js line 117). -/
def itemLineText (item : JsValue) : JsValue :=
  if jsTypeof item == ("string").data then item
  else if truthy item && (jsTypeof item == ("object").data)
      && !isNullish (getField item (("text").data)) then
    getField item (("text").data)
  else .str (jsToString item)

/-- The Outline Renderer, `itemsToOutline` (server.js lines 114-120). -/
def itemsToOutline (items : JsValue) : JStr :=
  match items with
  | .arr xs =>
    if xs.length = 0 then []
    else jsJoin ("\n").data
      (xs.map (fun item => ("- ").data ++ jsTrim (jsToString (itemLineText item))))
  | _ => []

/-- Canonical `\x7b text \x7d` record produced by the Item Normalizer. -/
structure NormItem where
  text : JStr
deriving Repr, DecidableEq

/-- The Item Normalizer, `normalizeItemForFrontend`
(server.js lines 123-136). -/
def normalizeItemForFrontend (item : JsValue) : NormItem :=
  match item with
  | .null => ⟨[]⟩
  | .undefinedV => ⟨[]⟩
  | .str s => ⟨jsTrim s⟩
  | .bool b => ⟨jsToString (.bool b)⟩
  | .num lex => ⟨jsToString (.num lex)⟩
  | v =>
    match getField v (("text").data) with
    | .str s => ⟨jsTrim s⟩
    | _ =>
      let core := jsCoalesce (getField v (("核心金句").data))
        (jsCoalesce (getField v (("core").data)) (.str []))
      let logic := jsCoalesce (getField v (("逻辑拆解").data))
        (jsCoalesce (getField v (("logic").data)) (.str []))
      let insight := jsCoalesce (getField v (("互动建议").data))
        (jsCoalesce (getField v (("insight").data)) (.str []))
      let parts :=
        (if truthy core then [jsTrim (jsToString core)] else [])
        ++ (if truthy logic then [jsTrim (jsToString logic)] else [])
        ++ (if truthy insight then [jsTrim (jsToString insight)] else [])
      ⟨jsJoin ("\n").data parts⟩

/-- Opening brace character (written via its code to keep JSON sample
text readable in escaped form). -/
def lbrace : Char := Char.ofNat 123

/-- Closing brace character. -/
def rbrace : Char := Char.ofNat 125

/-- JSON insignificant whitespace (strict `JSON.parse` set: space, tab,
line feed, carriage return). -/
def jsonWsChar (c : Char) : Bool :=
  c == ' ' || c == '\t' || c == '\n' || c == '\r'

/-- Skip JSON whitespace. -/
def skipWs (s : JStr) : JStr := s.dropWhile jsonWsChar

/-- ASCII decimal digit. -/
def isJsonDigit (c : Char) : Bool := '0' ≤ c && c ≤ '9'

/-- Value of one hexadecimal digit. -/
def hexVal (c : Char) : Option Nat :=
  if '0' ≤ c ∧ c ≤ '9' then some (c.toNat - 48)
  else if 'a' ≤ c ∧ c ≤ 'f' then some (c.toNat - 87)
  else if 'A' ≤ c ∧ c ≤ 'F' then some (c.toNat - 70)
  else none

/-- Body of a JSON string literal, after the opening quote: returns the
decoded contents and the remainder after the closing quote.  Strict
`JSON.parse` rejects unescaped control characters. -/
def parseStringBody : JStr → JStr → Option (JStr × JStr)
  | [], _ => none
  | '"' :: t, acc => some (acc.reverse, t)
  | '\\' :: e :: t, acc =>
    match e with
    | '"' => parseStringBody t ('"' :: acc)
    | '\\' => parseStringBody t ('\\' :: acc)
    | '/' => parseStringBody t ('/' :: acc)
    | 'b' => parseStringBody t (Char.ofNat 8 :: acc)
    | 'f' => parseStringBody t (Char.ofNat 12 :: acc)
    | 'n' => parseStringBody t ('\n' :: acc)
    | 'r' => parseStringBody t ('\r' :: acc)
    | 't' => parseStringBody t ('\t' :: acc)
    | 'u' =>
      match t with
      | a :: b :: c :: d :: t2 =>
        match hexVal a, hexVal b, hexVal c, hexVal d with
        | some x, some y, some z, some w =>
          parseStringBody t2 (Char.ofNat (((x * 16 + y) * 16 + z) * 16 + w) :: acc)
        | _, _, _, _ => none
      | _ => none
    | _ => none
  | c :: t, acc => if c.toNat < 32 then none else parseStringBody t (c :: acc)

/-- A JSON number lexeme (strict grammar); returns the lexeme and the
remainder. -/
def parseNumber (s0 : JStr) : Option (JStr × JStr) :=
  let signed := match s0 with
    | '-' :: t => ((['-'] : JStr), t)
    | _ => (([] : JStr), s0)
  let sign := signed.1
  let s1 := signed.2
  match s1.span isJsonDigit with
  | ([], _) => none
  | (ds, r) =>
    if 1 < ds.length && ds.head? == some '0' then none
    else
      let fracRes : Option (JStr × JStr) := match r with
        | '.' :: t =>
          (match t.span isJsonDigit with
           | ([], _) => none
           | (fs, r2) => some (('.' :: fs), r2))
        | _ => some ([], r)
      match fracRes with
      | none => none
      | some (frac, r2) =>
        let expRes : Option (JStr × JStr) := match r2 with
          | c :: t =>
            if c == 'e' || c == 'E' then
              let sg := match t with
                | c2 :: t2 => if c2 == '+' || c2 == '-' then (([c2] : JStr), t2) else ([], t)
                | [] => ([], t)
              (match sg.2.span isJsonDigit with
               | ([], _) => none
               | (es, r3) => some ((c :: (sg.1 ++ es)), r3))
            else some ([], r2)
          | [] => some ([], r2)
        match expRes with
        | none => none
        | some (ex, r3) => some (sign ++ ds ++ frac ++ ex, r3)

mutual

/-- One JSON value at the head of the input (fuel-indexed recursive
descent mirroring strict `JSON.parse`). -/
def parseValue : Nat → JStr → Option (JsValue × JStr)
  | 0, _ => none
  | fuel + 1, s =>
    match s with
    | 'n' :: 'u' :: 'l' :: 'l' :: t => some (.null, t)
    | 't' :: 'r' :: 'u' :: 'e' :: t => some (.bool true, t)
    | 'f' :: 'a' :: 'l' :: 's' :: 'e' :: t => some (.bool false, t)
    | '"' :: t =>
      (match parseStringBody t [] with
       | some (cs, r) => some (.str cs, r)
       | none => none)
    | '[' :: t =>
      (match skipWs t with
       | ']' :: r => some (.arr [], r)
       | _ =>
         match parseElems fuel (skipWs t) with
         | some (xs, r) => some (.arr xs, r)
         | none => none)
    | c :: t =>
      if c == lbrace then
        match skipWs t with
        | d :: r =>
          if d == rbrace then some (.obj [], r)
          else
            (match parseMembers fuel (skipWs t) with
             | some (fs, r2) => some (.obj fs, r2)
             | none => none)
        | [] => none
      else
        (match parseNumber (c :: t) with
         | some (lex, r) => some (.num lex, r)
         | none => none)
    | [] => none

/-- Comma-separated array elements up to the closing bracket. -/
def parseElems : Nat → JStr → Option (List JsValue × JStr)
  | 0, _ => none
  | fuel + 1, s =>
    match parseValue fuel (skipWs s) with
    | none => none
    | some (v, r) =>
      match skipWs r with
      | ',' :: r2 =>
        (match parseElems fuel r2 with
         | some (xs, r3) => some (v :: xs, r3)
         | none => none)
      | ']' :: r2 => some ([v], r2)
      | _ => none

/-- Comma-separated object members up to the closing brace. -/
def parseMembers : Nat → JStr → Option (List (JStr × JsValue) × JStr)
  | 0, _ => none
  | fuel + 1, s =>
    match skipWs s with
    | '"' :: t =>
      (match parseStringBody t [] with
       | none => none
       | some (k, r) =>
         match skipWs r with
         | ':' :: r2 =>
           (match parseValue fuel (skipWs r2) with
            | none => none
            | some (v, r3) =>
              match skipWs r3 with
              | ',' :: r4 =>
                (match parseMembers fuel r4 with
                 | some (fs, r5) => some ((k, v) :: fs, r5)
                 | none => none)
              | c :: r4 => if c == rbrace then some ([(k, v)], r4) else none
              | [] => none)
         | _ => none)
    | _ => none

end

/-- Strict JSON decoding of a whole string, as `JSON.parse` does:
leading and trailing JSON whitespace allowed, nothing else. -/
def jsonParse (s : JStr) : Option JsValue :=
  match parseValue (s.length + 1) (skipWs s) with
  | some (v, r) => if skipWs r = [] then some v else none
  | none => none

/-- Removal of a leading code fence: the anchored pattern
`headFence (json)? ws*` with the tag matched case-insensitively
(server.js line 142, first `replace`). -/
def stripLeadFence (s : JStr) : JStr :=
  if (("```").data).isPrefixOf s then
    let r := s.drop 3
    let r2 := if (r.take 4).map Char.toLower = ("json").data then r.drop 4 else r
    r2.dropWhile jsWsChar
  else s

/-- Removal of a trailing code fence: the leftmost match of the pattern
`ws* fence` anchored at the end of the string (server.js line 142,
second `replace`). -/
def stripTrailFence (s : JStr) : JStr :=
  match leastSuffix (fun t => t.dropWhile jsWsChar == ("```").data) s with
  | some p => s.take p
  | none => s

/-- The exact string handed to `JSON.parse` by `parseAIResponse`
(server.js lines 140-142). -/
def jsonCandidate (text : JStr) : JStr :=
  jsTrim (stripTrailFence (stripLeadFence (jsTrim text)))

/-- Result record of the Structured Response Parser.  `items` carries
the JavaScript value of the source's `items` variable: `JsValue.null`
on the fallback and missing-items paths (server.js lines 147 and 165),
or the raw array.  `visualCode` likewise holds `JsValue.null` or the
trimmed string, preserving the source's null-versus-undefined
distinction. -/
structure ParsedResponse where
  outline : JStr
  opening : JStr
  items : JsValue
  visualCode : JsValue
deriving Repr

/-- Field extraction for `outline` after the `items` override
(server.js lines 149-154). -/
def jsonOutline (v : JsValue) : JStr :=
  if truthy v then
    let o := match getField v (("outline").data) with
      | .str s => s
      | _ => []
    match getField v (("items").data) with
    | .arr xs => if 0 < xs.length then itemsToOutline (.arr xs) else o
    | _ => o
  else []

/-- Field extraction for `items`: initialised to `null`, overwritten by
the raw array when it is non-empty (server.js lines 147, 151-153). -/
def jsonItems (v : JsValue) : JsValue :=
  if truthy v then
    match getField v (("items").data) with
    | .arr xs => if 0 < xs.length then .arr xs else .null
    | _ => .null
  else .null

/-- Field extraction for `opening`: `summary` first, then `opening`
(server.js line 155). -/
def jsonOpening (v : JsValue) : JStr :=
  if truthy v then
    match getField v (("summary").data) with
    | .str s => s
    | _ =>
      match getField v (("opening").data) with
      | .str s => s
      | _ => []
  else []

/-- Field extraction for `visualCode`: initialised to `null`,
overwritten by the trimmed string coercion when present and non-blank
(server.js lines 148, 156-158). -/
def jsonVisual (v : JsValue) : JsValue :=
  if truthy v then
    let vc := getField v (("visualCode").data)
    if !isNullish vc && !(jsTrim (jsToString vc)).isEmpty then
      .str (jsTrim (jsToString vc))
    else .null
  else .null

/-- The fallback record built from the Marker-Based Section Splitter
(server.js lines 164-165). -/
def fallbackResponse (raw : JStr) : ParsedResponse :=
  let r := parseClaudeResponse raw
  ⟨r.outline, r.opening, .null, .null⟩

/-- The Structured Response Parser, `parseAIResponse`
(server.js lines 139-166).  Total: every input yields a record. -/
def parseAIResponse (text : JStr) : ParsedResponse :=
  let raw := jsTrim text
  match jsonParse (jsonCandidate text) with
  | some v =>
    let outline := jsonOutline v
    let opening := jsonOpening v
    let items := jsonItems v
    if outline ≠ [] ∨ opening ≠ [] ∨ truthy items then
      ⟨outline, opening, items, jsonVisual v⟩
    else fallbackResponse raw
  | none => fallbackResponse raw

/-! Occurrence infrastructure for reasoning about `jsIndexOf`. -/

/-- `needle` occurs in `hay` starting at position `i`. -/
def OccursAt (needle hay : JStr) (i : Nat) : Prop :=
  needle <+: hay.drop i

theorem leastSuffix_eq_none_iff {f : JStr → Bool} {s : JStr} :
    leastSuffix f s = none ↔ ∀ j, f (s.drop j) = false := by
  induction s with
  | nil =>
    by_cases h : f []
    · simp [leastSuffix, h]
    · simp only [leastSuffix, if_neg h, true_iff, List.drop_nil]
      exact fun _ => Bool.not_eq_true _ ▸ (by simpa using h)
  | cons c t ih =>
    by_cases h : f (c :: t)
    · constructor
      · intro h0; simp [leastSuffix, h] at h0
      · intro hall; exact absurd (hall 0) (by simpa using h)
    · simp only [leastSuffix, if_neg h, Option.map_eq_none', ih]
      constructor
      · intro hall j
        cases j with
        | zero => simpa using h
        | succ j0 => simpa using hall j0
      · intro hall j
        simpa using hall (j + 1)

theorem leastSuffix_eq_some_of {f : JStr → Bool} {s : JStr} {k : Nat}
    (h1 : f (s.drop k) = true) (h2 : k ≤ s.length)
    (h3 : ∀ j < k, f (s.drop j) = false) :
    leastSuffix f s = some k := by
  induction s generalizing k with
  | nil =>
    have hk : k = 0 := by simpa using h2
    subst hk
    simp only [List.drop_nil] at h1
    simp [leastSuffix, h1]
  | cons c t ih =>
    cases k with
    | zero =>
      simp only [List.drop_zero] at h1
      simp [leastSuffix, h1]
    | succ k0 =>
      have h0 : f (c :: t) = false := by simpa using h3 0 (Nat.succ_pos k0)
      have hrec : leastSuffix f t = some k0 := by
        apply ih
        · simpa using h1
        · simpa using h2
        · intro j hj; simpa using h3 (j + 1) (by omega)
      simp [leastSuffix, h0, hrec]

theorem leastSuffix_eq_some_sound {f : JStr → Bool} {s : JStr} {k : Nat}
    (h : leastSuffix f s = some k) :
    f (s.drop k) = true ∧ k ≤ s.length := by
  induction s generalizing k with
  | nil =>
    by_cases h0 : f []
    · simp [leastSuffix, h0] at h
      subst h; simpa using h0
    · simp [leastSuffix, h0] at h
  | cons c t ih =>
    by_cases h0 : f (c :: t)
    · simp [leastSuffix, h0] at h
      subst h; simpa using h0
    · simp only [leastSuffix, if_neg h0, Option.map_eq_some'] at h
      obtain ⟨k0, hk0, rfl⟩ := h
      obtain ⟨ha, hb⟩ := ih hk0
      exact ⟨by simpa using ha, by simpa using hb⟩

theorem jsIndexOf_eq_of_occurs {hay needle : JStr} {k : Nat}
    (h1 : OccursAt needle hay k) (h2 : k ≤ hay.length)
    (h3 : ∀ j < k, ¬ OccursAt needle hay j) :
    jsIndexOf hay needle = (k : Int) := by
  unfold jsIndexOf
  rw [leastSuffix_eq_some_of (f := fun t => needle.isPrefixOf t)
    (by simpa [List.isPrefixOf_iff_prefix] using h1) h2
    (fun j hj => by
      have hx := h3 j hj
      simp only [OccursAt] at hx
      exact Bool.eq_false_iff.mpr (fun hc => hx (List.isPrefixOf_iff_prefix.mp hc)))]

theorem jsIndexOf_eq_neg_one_iff {hay needle : JStr} :
    jsIndexOf hay needle = -1 ↔ ∀ j, ¬ OccursAt needle hay j := by
  unfold jsIndexOf
  rcases h : leastSuffix (fun t => needle.isPrefixOf t) hay with _ | i
  · rw [leastSuffix_eq_none_iff] at h
    simp only [true_iff]
    intro j hj
    simp only [OccursAt] at hj
    have hfalse : needle.isPrefixOf (hay.drop j) = false := by simpa using h j
    have htrue : needle.isPrefixOf (hay.drop j) = true := List.isPrefixOf_iff_prefix.mpr hj
    rw [htrue] at hfalse
    cases hfalse
  · obtain ⟨ha, _⟩ := leastSuffix_eq_some_sound h
    change (i : Int) = -1 ↔ _
    constructor
    · intro hfalse
      exact absurd hfalse (by omega)
    · intro hall
      exact absurd (by simpa [OccursAt, List.isPrefixOf_iff_prefix] using ha) (hall i)

theorem OccursAt.getElem_eq {n h : JStr} {i : Nat} (hocc : OccursAt n h i)
    {j : Nat} (hj : j < n.length) : h[i + j]? = n[j]? := by
  obtain ⟨t, ht⟩ := hocc
  rw [← List.getElem?_drop, ← ht, List.getElem?_append_left hj]

theorem OccursAt.add_length_le {n h : JStr} {i : Nat} (hocc : OccursAt n h i)
    (hn : n ≠ []) : i + n.length ≤ h.length := by
  obtain ⟨t, ht⟩ := hocc
  have h1 : n.length + t.length = h.length - i := by
    have := congrArg List.length ht
    simpa using this
  by_cases hi : i ≤ h.length
  · omega
  · exfalso
    have : h.drop i = [] := List.drop_eq_nil_of_le (by omega)
    rw [this] at ht
    exact hn (List.append_eq_nil.mp ht).1

theorem occursAt_append_start (A B : JStr) {n : JStr} (h : n <+: B) :
    OccursAt n (A ++ B) A.length := by
  unfold OccursAt
  rwa [show A.length = A.length + 0 by omega, List.drop_append, List.drop_zero]

theorem occursAt_append_right_shift {n A B : JStr} {j : Nat}
    (h : OccursAt n (A ++ B) j) (hj : A.length ≤ j) :
    OccursAt n B (j - A.length) := by
  unfold OccursAt at h ⊢
  rwa [List.drop_append_eq_append_drop, List.drop_eq_nil_of_le hj,
    List.nil_append] at h

theorem occursAt_append_left_fit {n A B : JStr} {i : Nat}
    (h : OccursAt n (A ++ B) i) (hfit : i + n.length ≤ A.length) :
    OccursAt n A i := by
  have hi : i ≤ A.length := by omega
  unfold OccursAt at h ⊢
  rw [List.drop_append_eq_append_drop, Nat.sub_eq_zero_of_le hi,
    List.drop_zero] at h
  obtain ⟨t, ht⟩ := h
  have hlen : n.length ≤ (A.drop i).length := by
    simp only [List.length_drop]; omega
  have htake := congrArg (List.take n.length) ht
  rw [List.take_append_of_le_length (by simp),
    List.take_of_length_le (by simp),
    List.take_append_of_le_length hlen] at htake
  rw [htake]
  exact List.take_prefix _ _

/-! Slice and trim helper lemmas. -/

theorem jsSliceI_nat (s : JStr) (a b : Nat) :
    jsSliceI s (a : Int) (b : Int) = (s.take b).drop a := by
  unfold jsSliceI
  have ha : ¬ ((a : Int) < 0) := by omega
  have hb : ¬ ((b : Int) < 0) := by omega
  simp only [if_neg ha, if_neg hb]
  have h1 : (min (b : Int) ((s.length : Nat) : Int)).toNat = min b s.length := by omega
  have h2 : (min (a : Int) ((s.length : Nat) : Int)).toNat = min a s.length := by omega
  rw [h1, h2]
  have h3 : s.take (min b s.length) = s.take b := by
    rcases Nat.le_total b s.length with h | h
    · rw [Nat.min_eq_left h]
    · rw [Nat.min_eq_right h, List.take_length, List.take_of_length_le h]
  rw [h3]
  rcases Nat.le_total a s.length with h | h
  · rw [Nat.min_eq_left h]
  · rw [Nat.min_eq_right h]
    have hl : (s.take b).length ≤ s.length := by
      simp only [List.length_take]; omega
    rw [List.drop_eq_nil_of_le hl, List.drop_eq_nil_of_le (by omega)]

theorem dropWhile_eq_self_of_head {p : Char → Bool} {s : JStr}
    (h : ∀ c, s.head? = some c → p c = false) : s.dropWhile p = s := by
  cases s with
  | nil => rfl
  | cons a t =>
    rw [List.dropWhile_cons, h a rfl]
    simp

theorem jsTrim_eq_self_of {s : JStr}
    (h1 : ∀ c, s.head? = some c → jsWsChar c = false)
    (h2 : ∀ c, s.getLast? = some c → jsWsChar c = false) : jsTrim s = s := by
  unfold jsTrim
  rw [dropWhile_eq_self_of_head h1,
    dropWhile_eq_self_of_head (by
      intro c hc
      exact h2 c (by rwa [List.head?_reverse] at hc)),
    List.reverse_reverse]

/-! Locating marker occurrences in concatenated texts. -/

theorem jsIndexOf_eq_zero_of_isPrefix {hay needle : JStr} (h : needle <+: hay) :
    jsIndexOf hay needle = 0 := by
  have h0 : jsIndexOf hay needle = ((0 : Nat) : Int) :=
    jsIndexOf_eq_of_occurs (by simpa [OccursAt] using h) (Nat.zero_le _)
      (fun j hj => absurd hj (by omega))
  simpa using h0

theorem not_occursAt_of_mismatch_left {P S n : JStr} {j d : Nat}
    (hjd : j + d < P.length) (hd : d < n.length) (hne : P[j + d]? ≠ n[d]?) :
    ¬ OccursAt n (P ++ S) j := fun hocc => by
  have h := hocc.getElem_eq hd
  rw [List.getElem?_append_left hjd] at h
  exact hne h

theorem occursAt_boundary_char {P S n : JStr} {j : Nat}
    (hocc : OccursAt n (P ++ S) j) (hj : j < P.length)
    (hover : P.length < j + n.length) : n[P.length - j]? = S[0]? := by
  have h := hocc.getElem_eq (j := P.length - j) (by omega)
  have hidx : j + (P.length - j) = P.length := by omega
  rw [hidx, List.getElem?_append_right (Nat.le_refl _), Nat.sub_self] at h
  exact h.symm

theorem not_occursAt_of_mismatch_boundary {P S n : JStr} {j : Nat}
    (hj : j < P.length) (hover : P.length < j + n.length)
    (hne : n[P.length - j]? ≠ S[0]?) : ¬ OccursAt n (P ++ S) j :=
  fun hocc => hne (occursAt_boundary_char hocc hj hover)

theorem no_occ_append_parts {P S n : JStr}
    (hP : ∀ j, ¬ OccursAt n P j)
    (hS : ∀ j, ¬ OccursAt n S j)
    (hstrad : ∀ j, j < P.length → P.length < j + n.length → ¬ OccursAt n (P ++ S) j) :
    ∀ j, ¬ OccursAt n (P ++ S) j := by
  intro j hocc
  by_cases hfit : j + n.length ≤ P.length
  · exact hP j (occursAt_append_left_fit hocc hfit)
  · by_cases hj : j < P.length
    · exact hstrad j hj (by omega) hocc
    · exact hS (j - P.length) (occursAt_append_right_shift hocc (by omega))

theorem jsIndexOf_append_boundary {P S n : JStr}
    (hpre : n <+: S)
    (hP : ∀ j, ¬ OccursAt n P j)
    (hstrad : ∀ j, j < P.length → P.length < j + n.length → ¬ OccursAt n (P ++ S) j) :
    jsIndexOf (P ++ S) n = (P.length : Int) := by
  apply jsIndexOf_eq_of_occurs (occursAt_append_start P S hpre)
    (by rw [List.length_append]; omega)
  intro j hj hocc
  by_cases hfit : j + n.length ≤ P.length
  · exact hP j (occursAt_append_left_fit hocc hfit)
  · exact hstrad j hj (by omega) hocc

theorem openMarker_length : openMarker.length = 5 := rfl

theorem outlineMarker_length : outlineMarker.length = 4 := rfl

/-- The outline marker never occurs strictly inside the opening marker,
nor straddling from it into any continuation. -/
theorem no_outline_in_open (S : JStr) (j : Nat) (hj : j < openMarker.length) :
    ¬ OccursAt outlineMarker (openMarker ++ S) j := by
  rcases Nat.eq_zero_or_pos j with rfl | hj0
  · exact not_occursAt_of_mismatch_left (d := 1) (by decide) (by decide) (by decide)
  · rw [openMarker_length] at hj
    have hj4 : j = 1 ∨ j = 2 ∨ j = 3 ∨ j = 4 := by omega
    rcases hj4 with rfl | rfl | rfl | rfl
    all_goals
      exact not_occursAt_of_mismatch_left (d := 0) (by decide) (by decide) (by decide)

/-- The opening marker never occurs strictly inside the outline marker,
nor straddling from it into any continuation. -/
theorem no_open_in_outline (S : JStr) (j : Nat) (hj : j < outlineMarker.length) :
    ¬ OccursAt openMarker (outlineMarker ++ S) j := by
  rcases Nat.eq_zero_or_pos j with rfl | hj0
  · exact not_occursAt_of_mismatch_left (d := 1) (by decide) (by decide) (by decide)
  · rw [outlineMarker_length] at hj
    have hj3 : j = 1 ∨ j = 2 ∨ j = 3 := by omega
    rcases hj3 with rfl | rfl | rfl
    all_goals
      exact not_occursAt_of_mismatch_left (d := 0) (by decide) (by decide) (by decide)

/-- Straddle refutation: a marker occurrence cannot end inside a region
that starts with the marker's own first character when the marker has a
unique first character. -/
theorem outline_marker_no_straddle {P L : JStr} (j : Nat)
    (hj : j < P.length) (hover : P.length < j + outlineMarker.length) :
    ¬ OccursAt outlineMarker (P ++ (outlineMarker ++ L)) j := by
  apply not_occursAt_of_mismatch_boundary hj hover
  rw [List.getElem?_append_left (by rw [outlineMarker_length]; omega)]
  rw [outlineMarker_length] at hover
  have hd : P.length - j = 1 ∨ P.length - j = 2 ∨ P.length - j = 3 := by omega
  rcases hd with h | h | h <;> rw [h] <;> decide

theorem open_marker_no_straddle {P L : JStr} (j : Nat)
    (hj : j < P.length) (hover : P.length < j + openMarker.length) :
    ¬ OccursAt openMarker (P ++ (openMarker ++ L)) j := by
  apply not_occursAt_of_mismatch_boundary hj hover
  rw [List.getElem?_append_left (by rw [openMarker_length]; omega)]
  rw [openMarker_length] at hover
  have hd : P.length - j = 1 ∨ P.length - j = 2 ∨ P.length - j = 3 ∨ P.length - j = 4 := by
    omega
  rcases hd with h | h | h | h <;> rw [h] <;> decide

/-! Branch evaluation of the Marker-Based Section Splitter. -/

theorem jsSliceI_cast (s : JStr) {a b : Int} {u w : Nat}
    (ha : a = (u : Int)) (hb : b = (w : Int)) :
    jsSliceI s a b = (s.take w).drop u := by
  subst ha; subst hb; exact jsSliceI_nat s u w

theorem parseClaudeResponse_eval_both {text : JStr} {a b : Nat}
    (ha : jsIndexOf text openMarker = (a : Int))
    (hb : jsIndexOf text outlineMarker = (b : Int))
    (hab : a < b) :
    parseClaudeResponse text =
      ⟨jsTrim (text.drop (b + outlineMarker.length)),
       jsTrim ((text.take b).drop (a + openMarker.length))⟩ := by
  have h1 : ¬ ((a : Int) = -1) := by omega
  have h2 : ¬ ((b : Int) = -1) := by omega
  have h3 : ((b : Int) > (a : Int)) := by omega
  have h4 : ¬ ((a : Int) > (b : Int)) := by omega
  simp only [parseClaudeResponse, ha, hb, sliceSection, h1, h2, h3, h4, ne_eq,
    not_false_eq_true, and_self, if_true, if_false, ite_true, ite_false,
    not_true, not_false_iff, eq_self_iff_true]
  rw [jsSliceI_cast text (u := a + openMarker.length) (w := b) (by push_cast; ring) rfl]
  rw [jsSliceI_cast text (u := b + outlineMarker.length) (w := text.length)
    (by push_cast; ring) rfl]
  rw [List.take_length]

theorem parseClaudeResponse_eval_both_rev {text : JStr} {a b : Nat}
    (ha : jsIndexOf text openMarker = (a : Int))
    (hb : jsIndexOf text outlineMarker = (b : Int))
    (hab : b < a) :
    parseClaudeResponse text =
      ⟨jsTrim ((text.take a).drop (b + outlineMarker.length)),
       jsTrim (text.drop (a + openMarker.length))⟩ := by
  have h1 : ¬ ((a : Int) = -1) := by omega
  have h2 : ¬ ((b : Int) = -1) := by omega
  have h3 : ¬ ((b : Int) > (a : Int)) := by omega
  have h4 : ((a : Int) > (b : Int)) := by omega
  simp only [parseClaudeResponse, ha, hb, sliceSection, h1, h2, h3, h4, ne_eq,
    not_false_eq_true, and_self, if_true, if_false, ite_true, ite_false,
    not_true, not_false_iff, eq_self_iff_true]
  rw [jsSliceI_cast text (u := a + openMarker.length) (w := text.length)
    (by push_cast; ring) rfl]
  rw [jsSliceI_cast text (u := b + outlineMarker.length) (w := a) (by push_cast; ring) rfl]
  rw [List.take_length]

theorem parseClaudeResponse_eval_open_only {text : JStr} {a : Nat}
    (ha : jsIndexOf text openMarker = (a : Int))
    (hb : jsIndexOf text outlineMarker = -1) :
    parseClaudeResponse text =
      ⟨altCleanup (jsTrim (text.take a)),
       jsTrim (text.drop (a + openMarker.length))⟩ := by
  have h1 : ¬ ((a : Int) = -1) := by omega
  simp only [parseClaudeResponse, ha, hb, sliceSection, h1, ne_eq,
    not_false_eq_true, not_true, false_and, and_false, if_true, if_false,
    ite_true, ite_false, not_false_iff, eq_self_iff_true]
  rw [jsSliceI_cast text (u := a + openMarker.length) (w := text.length)
    (by push_cast; ring) rfl]
  rw [jsSliceI_cast text (u := 0) (w := a) (by norm_num) rfl]
  rw [List.take_length, List.drop_zero]

theorem parseClaudeResponse_eval_none {text : JStr}
    (ha : jsIndexOf text openMarker = -1)
    (hb : jsIndexOf text outlineMarker = -1) :
    parseClaudeResponse text =
      ⟨jsTrim (text.take (text.length / 2)), jsTrim text⟩ := by
  simp only [parseClaudeResponse, ha, hb, sliceSection, ne_eq,
    not_true, false_and, and_false, if_true, if_false, ite_true, ite_false,
    not_false_iff, eq_self_iff_true, not_not]
  rw [jsSliceI_cast text (u := 0) (w := text.length / 2) (by norm_num) rfl]
  rw [List.drop_zero]

/-! Claim theorems for the Marker-Based Section Splitter. -/

/-- C4: for all strings `O` and `L` containing neither marker, the
splitter is order-agnostic: on `openMarker ++ O ++ outlineMarker ++ L`
and on `outlineMarker ++ L ++ openMarker ++ O` it returns the same
result, with `opening` equal to `O` trimmed and `outline` equal to `L`
trimmed. -/
theorem parseClaudeResponse_order_agnostic (O L : JStr)
    (hO1 : jsIndexOf O openMarker = -1) (hO2 : jsIndexOf O outlineMarker = -1)
    (hL1 : jsIndexOf L openMarker = -1) (hL2 : jsIndexOf L outlineMarker = -1) :
    parseClaudeResponse (openMarker ++ O ++ outlineMarker ++ L) = ⟨jsTrim L, jsTrim O⟩ ∧
    parseClaudeResponse (outlineMarker ++ L ++ openMarker ++ O) = ⟨jsTrim L, jsTrim O⟩ := by
  have hOoutl := jsIndexOf_eq_neg_one_iff.mp hO2
  have hLopen := jsIndexOf_eq_neg_one_iff.mp hL1
  constructor
  · have hassoc : openMarker ++ O ++ outlineMarker ++ L
        = (openMarker ++ O) ++ (outlineMarker ++ L) := by
      simp [List.append_assoc]
    rw [hassoc]
    have hopen : jsIndexOf ((openMarker ++ O) ++ (outlineMarker ++ L)) openMarker
        = ((0 : Nat) : Int) := by
      rw [jsIndexOf_eq_zero_of_isPrefix (by
        rw [List.append_assoc]
        exact List.prefix_append _ _)]
      norm_num
    have houtl : jsIndexOf ((openMarker ++ O) ++ (outlineMarker ++ L)) outlineMarker
        = (((openMarker ++ O).length : Nat) : Int) := by
      apply jsIndexOf_append_boundary (List.prefix_append _ _)
      · apply no_occ_append_parts
        · exact jsIndexOf_eq_neg_one_iff.mp (by decide)
        · exact hOoutl
        · exact fun j hj _ => no_outline_in_open O j hj
      · exact fun j hj hover => outline_marker_no_straddle j hj hover
    rw [parseClaudeResponse_eval_both hopen houtl
      (by rw [List.length_append, openMarker_length]; omega)]
    have e1 : List.drop ((openMarker ++ O).length + outlineMarker.length)
        ((openMarker ++ O) ++ (outlineMarker ++ L)) = L := by
      rw [List.drop_append, List.drop_left]
    have e2 : List.drop (0 + openMarker.length)
        (List.take (openMarker ++ O).length ((openMarker ++ O) ++ (outlineMarker ++ L))) = O := by
      rw [List.take_left, Nat.zero_add, List.drop_left]
    rw [e1, e2]
  · have hassoc : outlineMarker ++ L ++ openMarker ++ O
        = (outlineMarker ++ L) ++ (openMarker ++ O) := by
      simp [List.append_assoc]
    rw [hassoc]
    have houtl : jsIndexOf ((outlineMarker ++ L) ++ (openMarker ++ O)) outlineMarker
        = ((0 : Nat) : Int) := by
      rw [jsIndexOf_eq_zero_of_isPrefix (by
        rw [List.append_assoc]
        exact List.prefix_append _ _)]
      norm_num
    have hopen : jsIndexOf ((outlineMarker ++ L) ++ (openMarker ++ O)) openMarker
        = (((outlineMarker ++ L).length : Nat) : Int) := by
      apply jsIndexOf_append_boundary (List.prefix_append _ _)
      · apply no_occ_append_parts
        · exact jsIndexOf_eq_neg_one_iff.mp (by decide)
        · exact hLopen
        · exact fun j hj _ => no_open_in_outline L j hj
      · exact fun j hj hover => open_marker_no_straddle j hj hover
    rw [parseClaudeResponse_eval_both_rev hopen houtl
      (by rw [List.length_append, outlineMarker_length]; omega)]
    have e1 : List.drop (0 + outlineMarker.length)
        (List.take (outlineMarker ++ L).length
          ((outlineMarker ++ L) ++ (openMarker ++ O))) = L := by
      rw [List.take_left, Nat.zero_add, List.drop_left]
    have e2 : List.drop ((outlineMarker ++ L).length + openMarker.length)
        ((outlineMarker ++ L) ++ (openMarker ++ O)) = O := by
      rw [List.drop_append, List.drop_left]
    rw [e1, e2]

/-- C4 witness: the order-agnostic split evaluated at concrete sections. -/
theorem parseClaudeResponse_order_agnostic_witness :
    parseClaudeResponse (openMarker ++ (" O ").data ++ outlineMarker ++ (" L ").data)
        = ⟨("L").data, ("O").data⟩ ∧
    parseClaudeResponse (outlineMarker ++ (" L ").data ++ openMarker ++ (" O ").data)
        = ⟨("L").data, ("O").data⟩ := by
  obtain ⟨h1, h2⟩ := parseClaudeResponse_order_agnostic ((" O ").data) ((" L ").data)
    (by decide) (by decide) (by decide) (by decide)
  constructor
  · rw [h1]; decide
  · rw [h2]; decide

/-- C9: on trimmed text containing neither marker, the splitter returns
the whole text as `opening` and the trimmed first half (character count,
rounded down) as `outline`. -/
theorem parseClaudeResponse_no_marker_halves (t : JStr)
    (h1 : jsIndexOf t openMarker = -1)
    (h2 : jsIndexOf t outlineMarker = -1)
    (h3 : jsTrim t = t) :
    parseClaudeResponse t = ⟨jsTrim (t.take (t.length / 2)), t⟩ := by
  rw [parseClaudeResponse_eval_none h1 h2, h3]

/-- C9 witness: the ten-character digit string splits into itself and
its first five characters. -/
theorem parseClaudeResponse_no_marker_halves_witness :
    parseClaudeResponse (("0123456789").data)
      = ⟨("01234").data, ("0123456789").data⟩ := by
  rw [parseClaudeResponse_no_marker_halves (("0123456789").data)
    (by decide) (by decide) (by decide)]
  decide

/-- C5 counterexample: with only the opening marker and a leading bullet
cue, the extracted outline is `"bullet one"` — the cue itself is
discarded — not `"- bullet one"` as the claim states. -/
theorem parseClaudeResponse_cleanup_counterexample :
    (parseClaudeResponse (("noise\n- bullet one\n【开场白】Hello").data)).outline
        = ("bullet one").data ∧
    ("bullet one").data ≠ ("- bullet one").data := by
  exact ⟨by decide, by decide⟩

/-- C5 amended: with only the opening marker present, the `outline` is
the trimmed leading segment with everything up to AND INCLUDING the
first alternate cue discarded (`altCleanup`), and the `opening` is the
trimmed text after the marker. -/
theorem parseClaudeResponse_open_only_cleanup (pre post : JStr)
    (hp1 : jsIndexOf pre openMarker = -1) (hp2 : jsIndexOf pre outlineMarker = -1)
    (hq1 : jsIndexOf post openMarker = -1) (hq2 : jsIndexOf post outlineMarker = -1) :
    parseClaudeResponse (pre ++ openMarker ++ post)
      = ⟨altCleanup (jsTrim pre), jsTrim post⟩ := by
  have hassoc : pre ++ openMarker ++ post = pre ++ (openMarker ++ post) :=
    List.append_assoc _ _ _
  rw [hassoc]
  have hopen : jsIndexOf (pre ++ (openMarker ++ post)) openMarker = ((pre.length : Nat) : Int) := by
    apply jsIndexOf_append_boundary (List.prefix_append _ _)
    · exact jsIndexOf_eq_neg_one_iff.mp hp1
    · exact fun j hj hover => open_marker_no_straddle j hj hover
  have houtl : jsIndexOf (pre ++ (openMarker ++ post)) outlineMarker = -1 := by
    rw [jsIndexOf_eq_neg_one_iff]
    apply no_occ_append_parts
    · exact jsIndexOf_eq_neg_one_iff.mp hp2
    · apply no_occ_append_parts
      · exact jsIndexOf_eq_neg_one_iff.mp (by decide)
      · exact jsIndexOf_eq_neg_one_iff.mp hq2
      · exact fun j hj _ => no_outline_in_open post j hj
    · intro j hj hover
      apply not_occursAt_of_mismatch_boundary hj hover
      rw [outlineMarker_length] at hover
      have hS0 : (openMarker ++ post)[0]? = some '【' := by
        rw [List.getElem?_append_left (by rw [openMarker_length]; omega)]
        decide
      rw [hS0]
      have hd : pre.length - j = 1 ∨ pre.length - j = 2 ∨ pre.length - j = 3 := by omega
      rcases hd with h | h | h <;> rw [h] <;> decide
  rw [parseClaudeResponse_eval_open_only hopen houtl]
  have e1 : List.take pre.length (pre ++ (openMarker ++ post)) = pre := List.take_left _ _
  have e2 : List.drop (pre.length + openMarker.length) (pre ++ (openMarker ++ post)) = post := by
    rw [List.drop_append, List.drop_left]
  rw [e1, e2]

/-- C5 amended witness: the spec's own example, evaluated — `"noise"`
and the bullet cue are both discarded. -/
theorem parseClaudeResponse_open_only_cleanup_witness :
    parseClaudeResponse (("noise\n- bullet one\n").data ++ openMarker ++ ("Hello").data)
      = ⟨("bullet one").data, ("Hello").data⟩ := by
  rw [parseClaudeResponse_open_only_cleanup (("noise\n- bullet one\n").data) (("Hello").data)
    (by decide) (by decide) (by decide) (by decide)]
  decide

/-! Claim theorems for the Outline Renderer. -/

/-- Whether a value is a string. -/
def isStrVal : JsValue → Bool
  | .str _ => true
  | _ => false

/-- Following the specification's wording for the Outline Renderer's
per-element rule: a string element is used as-is; an object exposing a
STRING `text` field contributes that field; anything else is
string-coerced. -/
def specItemLineText (item : JsValue) : JsValue :=
  match item with
  | .str s => .str s
  | .obj fields =>
    match getField (.obj fields) (("text").data) with
    | .str t => .str t
    | _ => .str (jsToString item)
  | _ => .str (jsToString item)

/-- The Outline Renderer as the specification describes it, built on
`specItemLineText`. -/
def specItemsToOutline (items : JsValue) : JStr :=
  match items with
  | .arr xs =>
    if xs.length = 0 then []
    else jsJoin ("\n").data
      (xs.map (fun item => ("- ").data ++ jsTrim (jsToString (specItemLineText item))))
  | _ => []

/-- The amended per-element rule matching the code: an object's `text`
field is used whenever it is neither null nor undefined — whether or
not it is a string — and everything else is string-coerced. -/
def amendedItemLineText (item : JsValue) : JsValue :=
  match item with
  | .str s => .str s
  | .obj fields =>
    match getField (.obj fields) (("text").data) with
    | .null => .str (jsToString item)
    | .undefinedV => .str (jsToString item)
    | t => t
  | _ => .str (jsToString item)

/-- The Outline Renderer restated with the amended per-element rule. -/
def amendedItemsToOutline (items : JsValue) : JStr :=
  match items with
  | .arr xs =>
    if xs.length = 0 then []
    else jsJoin ("\n").data
      (xs.map (fun item => ("- ").data ++ jsTrim (jsToString (amendedItemLineText item))))
  | _ => []

theorem itemLineText_eq_amended (x : JsValue) :
    itemLineText x = amendedItemLineText x := by
  cases x with
  | undefinedV => rfl
  | null => rfl
  | bool b => cases b <;> rfl
  | num lex =>
    simp [itemLineText, amendedItemLineText, jsTypeof]
  | str s => rfl
  | arr xs => rfl
  | obj fields =>
    simp only [itemLineText, amendedItemLineText]
    cases hx : getField (.obj fields) (("text").data) with
    | undefinedV => simp [jsTypeof, isNullish]
    | null => simp [jsTypeof, isNullish]
    | bool b => simp [jsTypeof, isNullish, truthy]
    | num lex => simp [jsTypeof, isNullish, truthy]
    | str s => simp [jsTypeof, isNullish, truthy]
    | arr ys => simp [jsTypeof, isNullish, truthy]
    | obj gs => simp [jsTypeof, isNullish, truthy]

/-- C7 counterexample: on the single-element array holding the object
`\x7b text: true \x7d` the renderer outputs `"- true"`, because the code
accepts any non-nullish `text` field; the claim's rule (string `text`
fields only) would output `"- [object Object]"`. -/
theorem itemsToOutline_counterexample :
    itemsToOutline (.arr [.obj [(("text").data, .bool true)]]) = ("- true").data ∧
    specItemsToOutline (.arr [.obj [(("text").data, .bool true)]])
        = ("- [object Object]").data ∧
    ("- true").data ≠ ("- [object Object]").data := by
  refine ⟨by decide, by decide, by decide⟩

/-- C7 amended: for every value, the Outline Renderer returns the empty
string on non-arrays and empty arrays, and otherwise maps each element
through the amended rule — string as-is, object `text` field whenever it
is non-nullish (string-coerced), string coercion otherwise — trimming
each line, prefixing `"- "`, and joining with newlines in input order. -/
theorem itemsToOutline_amended (v : JsValue) :
    itemsToOutline v = amendedItemsToOutline v := by
  cases v with
  | arr xs =>
    simp only [itemsToOutline, amendedItemsToOutline, itemLineText_eq_amended]
  | undefinedV => rfl
  | null => rfl
  | bool b => rfl
  | num lex => rfl
  | str s => rfl
  | obj fields => rfl

/-! Claim theorems for the Item Normalizer. -/

/-- Following the specification's wording for the domain-record rule:
read core/logic/insight each from the native key or its English alias,
keep the non-empty (truthy) ones in the fixed order core → logic →
insight, trim each after string coercion, and join with single
newlines. -/
def specDomainText (fields : List (JStr × JsValue)) : JStr :=
  let vals :=
    [jsCoalesce (getField (.obj fields) (("核心金句").data))
       (jsCoalesce (getField (.obj fields) (("core").data)) (.str [])),
     jsCoalesce (getField (.obj fields) (("逻辑拆解").data))
       (jsCoalesce (getField (.obj fields) (("logic").data)) (.str [])),
     jsCoalesce (getField (.obj fields) (("互动建议").data))
       (jsCoalesce (getField (.obj fields) (("insight").data)) (.str []))]
  jsJoin ("\n").data ((vals.filter truthy).map (fun v => jsTrim (jsToString v)))

/-- C6: on an object with no string `text` field the normalizer emits
exactly the newline-join of the trimmed truthy core/logic/insight
values, in the fixed order, omitting the falsy ones. -/
theorem normalizeItem_domain_record (fields : List (JStr × JsValue))
    (ht : isStrVal (getField (.obj fields) (("text").data)) = false) :
    normalizeItemForFrontend (.obj fields) = ⟨specDomainText fields⟩ := by
  simp only [normalizeItemForFrontend, specDomainText]
  cases hx : getField (.obj fields) (("text").data) with
  | str s => rw [hx] at ht; simp [isStrVal] at ht
  | undefinedV =>
    cases h1 : truthy (jsCoalesce (getField (.obj fields) (("核心金句").data))
        (jsCoalesce (getField (.obj fields) (("core").data)) (.str []))) <;>
    cases h2 : truthy (jsCoalesce (getField (.obj fields) (("逻辑拆解").data))
        (jsCoalesce (getField (.obj fields) (("logic").data)) (.str []))) <;>
    cases h3 : truthy (jsCoalesce (getField (.obj fields) (("互动建议").data))
        (jsCoalesce (getField (.obj fields) (("insight").data)) (.str []))) <;>
    simp [List.filter, h1, h2, h3]
  | null =>
    cases h1 : truthy (jsCoalesce (getField (.obj fields) (("核心金句").data))
        (jsCoalesce (getField (.obj fields) (("core").data)) (.str []))) <;>
    cases h2 : truthy (jsCoalesce (getField (.obj fields) (("逻辑拆解").data))
        (jsCoalesce (getField (.obj fields) (("logic").data)) (.str []))) <;>
    cases h3 : truthy (jsCoalesce (getField (.obj fields) (("互动建议").data))
        (jsCoalesce (getField (.obj fields) (("insight").data)) (.str []))) <;>
    simp [List.filter, h1, h2, h3]
  | bool b =>
    cases h1 : truthy (jsCoalesce (getField (.obj fields) (("核心金句").data))
        (jsCoalesce (getField (.obj fields) (("core").data)) (.str []))) <;>
    cases h2 : truthy (jsCoalesce (getField (.obj fields) (("逻辑拆解").data))
        (jsCoalesce (getField (.obj fields) (("logic").data)) (.str []))) <;>
    cases h3 : truthy (jsCoalesce (getField (.obj fields) (("互动建议").data))
        (jsCoalesce (getField (.obj fields) (("insight").data)) (.str []))) <;>
    simp [List.filter, h1, h2, h3]
  | num lex =>
    cases h1 : truthy (jsCoalesce (getField (.obj fields) (("核心金句").data))
        (jsCoalesce (getField (.obj fields) (("core").data)) (.str []))) <;>
    cases h2 : truthy (jsCoalesce (getField (.obj fields) (("逻辑拆解").data))
        (jsCoalesce (getField (.obj fields) (("logic").data)) (.str []))) <;>
    cases h3 : truthy (jsCoalesce (getField (.obj fields) (("互动建议").data))
        (jsCoalesce (getField (.obj fields) (("insight").data)) (.str []))) <;>
    simp [List.filter, h1, h2, h3]
  | arr xs =>
    cases h1 : truthy (jsCoalesce (getField (.obj fields) (("核心金句").data))
        (jsCoalesce (getField (.obj fields) (("core").data)) (.str []))) <;>
    cases h2 : truthy (jsCoalesce (getField (.obj fields) (("逻辑拆解").data))
        (jsCoalesce (getField (.obj fields) (("logic").data)) (.str []))) <;>
    cases h3 : truthy (jsCoalesce (getField (.obj fields) (("互动建议").data))
        (jsCoalesce (getField (.obj fields) (("insight").data)) (.str []))) <;>
    simp [List.filter, h1, h2, h3]
  | obj gs =>
    cases h1 : truthy (jsCoalesce (getField (.obj fields) (("核心金句").data))
        (jsCoalesce (getField (.obj fields) (("core").data)) (.str []))) <;>
    cases h2 : truthy (jsCoalesce (getField (.obj fields) (("逻辑拆解").data))
        (jsCoalesce (getField (.obj fields) (("logic").data)) (.str []))) <;>
    cases h3 : truthy (jsCoalesce (getField (.obj fields) (("互动建议").data))
        (jsCoalesce (getField (.obj fields) (("insight").data)) (.str []))) <;>
    simp [List.filter, h1, h2, h3]

/-- C6 witness: the record with native core and logic keys yields the
two-line join. -/
theorem normalizeItem_domain_record_witness :
    isStrVal (getField (.obj [(("核心金句").data, .str (("A").data)),
        (("逻辑拆解").data, .str (("B").data))]) (("text").data)) = false ∧
    normalizeItemForFrontend (.obj [(("核心金句").data, .str (("A").data)),
        (("逻辑拆解").data, .str (("B").data))]) = ⟨("A\nB").data⟩ := by
  constructor
  · decide
  · rw [normalizeItem_domain_record _ (by decide)]
    decide

/-- Removal of every binding of one key from an object's field list. -/
def eraseField (fields : List (JStr × JsValue)) (k : JStr) : List (JStr × JsValue) :=
  fields.filter (fun p => !(p.1 == k))

theorem find?_filter_ne (l : List (JStr × JsValue)) (k k2 : JStr)
    (hne : (k2 == k) = false) :
    ((l.filter (fun p => !(p.1 == k))).find? (fun p => p.1 == k2))
      = l.find? (fun p => p.1 == k2) := by
  induction l with
  | nil => rfl
  | cons p t ih =>
    by_cases h : (p.1 == k2) = true
    · have hpk : (p.1 == k) = false := by
        have he : p.1 = k2 := by simpa using h
        rw [he]
        exact hne
      simp [List.filter_cons, hpk, List.find?_cons, h]
    · have h9 : (p.1 == k2) = false := by simpa using h
      by_cases h2 : (p.1 == k) = true
      · simp [List.filter_cons, h2, List.find?_cons, h9, ih]
      · have h8 : (p.1 == k) = false := by simpa using h2
        simp [List.filter_cons, h8, List.find?_cons, h9, ih]

theorem getField_obj_erase {fields : List (JStr × JsValue)} {k k2 : JStr}
    (hne : (k2 == k) = false) :
    getField (.obj (eraseField fields k)) k2 = getField (.obj fields) k2 := by
  simp only [getField, eraseField]
  rw [← List.filter_reverse, find?_filter_ne _ _ _ hne]

/-- Erasing every `core` binding is invisible whenever the native
key 核心金句 holds a non-nullish value, since `??` then never reads
the alias. -/
theorem normalizeItem_erase_core (fields : List (JStr × JsValue))
    (hv : isNullish (getField (.obj fields) (("核心金句").data)) = false) :
    normalizeItemForFrontend (.obj fields)
      = normalizeItemForFrontend (.obj (eraseField fields (("core").data))) := by
  have h1 : getField (.obj (eraseField fields (("core").data))) (("text").data)
      = getField (.obj fields) (("text").data) := getField_obj_erase (by decide)
  have h2 : getField (.obj (eraseField fields (("core").data))) (("核心金句").data)
      = getField (.obj fields) (("核心金句").data) := getField_obj_erase (by decide)
  have h3 : getField (.obj (eraseField fields (("core").data))) (("逻辑拆解").data)
      = getField (.obj fields) (("逻辑拆解").data) := getField_obj_erase (by decide)
  have h4 : getField (.obj (eraseField fields (("core").data))) (("logic").data)
      = getField (.obj fields) (("logic").data) := getField_obj_erase (by decide)
  have h5 : getField (.obj (eraseField fields (("core").data))) (("互动建议").data)
      = getField (.obj fields) (("互动建议").data) := getField_obj_erase (by decide)
  have h6 : getField (.obj (eraseField fields (("core").data))) (("insight").data)
      = getField (.obj fields) (("insight").data) := getField_obj_erase (by decide)
  have hcoal2 : jsCoalesce (getField (.obj fields) (("核心金句").data))
      (jsCoalesce (getField (.obj (eraseField fields (("core").data))) (("core").data))
        (.str []))
    = jsCoalesce (getField (.obj fields) (("核心金句").data))
      (jsCoalesce (getField (.obj fields) (("core").data)) (.str [])) := by
    simp [jsCoalesce, hv]
  simp only [normalizeItemForFrontend, h1, h2, h3, h4, h5, h6, hcoal2]

/-- Erasing every `logic` binding is invisible whenever the native
key 逻辑拆解 holds a non-nullish value, since `??` then never reads
the alias. -/
theorem normalizeItem_erase_logic (fields : List (JStr × JsValue))
    (hv : isNullish (getField (.obj fields) (("逻辑拆解").data)) = false) :
    normalizeItemForFrontend (.obj fields)
      = normalizeItemForFrontend (.obj (eraseField fields (("logic").data))) := by
  have h1 : getField (.obj (eraseField fields (("logic").data))) (("text").data)
      = getField (.obj fields) (("text").data) := getField_obj_erase (by decide)
  have h2 : getField (.obj (eraseField fields (("logic").data))) (("核心金句").data)
      = getField (.obj fields) (("核心金句").data) := getField_obj_erase (by decide)
  have h3 : getField (.obj (eraseField fields (("logic").data))) (("core").data)
      = getField (.obj fields) (("core").data) := getField_obj_erase (by decide)
  have h4 : getField (.obj (eraseField fields (("logic").data))) (("逻辑拆解").data)
      = getField (.obj fields) (("逻辑拆解").data) := getField_obj_erase (by decide)
  have h5 : getField (.obj (eraseField fields (("logic").data))) (("互动建议").data)
      = getField (.obj fields) (("互动建议").data) := getField_obj_erase (by decide)
  have h6 : getField (.obj (eraseField fields (("logic").data))) (("insight").data)
      = getField (.obj fields) (("insight").data) := getField_obj_erase (by decide)
  have hcoal2 : jsCoalesce (getField (.obj fields) (("逻辑拆解").data))
      (jsCoalesce (getField (.obj (eraseField fields (("logic").data))) (("logic").data))
        (.str []))
    = jsCoalesce (getField (.obj fields) (("逻辑拆解").data))
      (jsCoalesce (getField (.obj fields) (("logic").data)) (.str [])) := by
    simp [jsCoalesce, hv]
  simp only [normalizeItemForFrontend, h1, h2, h3, h4, h5, h6, hcoal2]

/-- Erasing every `insight` binding is invisible whenever the native
key 互动建议 holds a non-nullish value, since `??` then never reads
the alias. -/
theorem normalizeItem_erase_insight (fields : List (JStr × JsValue))
    (hv : isNullish (getField (.obj fields) (("互动建议").data)) = false) :
    normalizeItemForFrontend (.obj fields)
      = normalizeItemForFrontend (.obj (eraseField fields (("insight").data))) := by
  have h1 : getField (.obj (eraseField fields (("insight").data))) (("text").data)
      = getField (.obj fields) (("text").data) := getField_obj_erase (by decide)
  have h2 : getField (.obj (eraseField fields (("insight").data))) (("核心金句").data)
      = getField (.obj fields) (("核心金句").data) := getField_obj_erase (by decide)
  have h3 : getField (.obj (eraseField fields (("insight").data))) (("core").data)
      = getField (.obj fields) (("core").data) := getField_obj_erase (by decide)
  have h4 : getField (.obj (eraseField fields (("insight").data))) (("逻辑拆解").data)
      = getField (.obj fields) (("逻辑拆解").data) := getField_obj_erase (by decide)
  have h5 : getField (.obj (eraseField fields (("insight").data))) (("logic").data)
      = getField (.obj fields) (("logic").data) := getField_obj_erase (by decide)
  have h6 : getField (.obj (eraseField fields (("insight").data))) (("互动建议").data)
      = getField (.obj fields) (("互动建议").data) := getField_obj_erase (by decide)
  have hcoal2 : jsCoalesce (getField (.obj fields) (("互动建议").data))
      (jsCoalesce (getField (.obj (eraseField fields (("insight").data))) (("insight").data))
        (.str []))
    = jsCoalesce (getField (.obj fields) (("互动建议").data))
      (jsCoalesce (getField (.obj fields) (("insight").data)) (.str [])) := by
    simp [jsCoalesce, hv]
  simp only [normalizeItemForFrontend, h1, h2, h3, h4, h5, h6, hcoal2]

/-- C10: for every native-language key and its English alias, the
alias is consulted only when the native value is null or undefined:
whenever 核心金句 / 逻辑拆解 / 互动建议 holds a non-nullish value,
removing every binding of its alias `core` / `logic` / `insight`
leaves the normalizer's output unchanged, so the native key's value
takes precedence and the alias is ignored. -/
theorem normalizeItem_native_key_precedence (fields : List (JStr × JsValue))
    (ht : isStrVal (getField (.obj fields) (("text").data)) = false) :
    (isNullish (getField (.obj fields) (("核心金句").data)) = false →
      normalizeItemForFrontend (.obj fields)
        = normalizeItemForFrontend (.obj (eraseField fields (("core").data)))) ∧
    (isNullish (getField (.obj fields) (("逻辑拆解").data)) = false →
      normalizeItemForFrontend (.obj fields)
        = normalizeItemForFrontend (.obj (eraseField fields (("logic").data)))) ∧
    (isNullish (getField (.obj fields) (("互动建议").data)) = false →
      normalizeItemForFrontend (.obj fields)
        = normalizeItemForFrontend (.obj (eraseField fields (("insight").data)))) :=
  ⟨normalizeItem_erase_core fields, normalizeItem_erase_logic fields,
   normalizeItem_erase_insight fields⟩

/-- C10 witness: a record carrying all three native keys together with
all three aliases; each alias can be dropped without changing the
output, which uses the native values `"A"`, `"C"`, `"E"`. -/
theorem normalizeItem_native_key_precedence_witness :
    (normalizeItemForFrontend (.obj
      [(("核心金句").data, .str (("A").data)), (("core").data, .str (("B").data)),
       (("逻辑拆解").data, .str (("C").data)), (("logic").data, .str (("D").data)),
       (("互动建议").data, .str (("E").data)), (("insight").data, .str (("F").data))])
      = normalizeItemForFrontend (.obj (eraseField
      [(("核心金句").data, .str (("A").data)), (("core").data, .str (("B").data)),
       (("逻辑拆解").data, .str (("C").data)), (("logic").data, .str (("D").data)),
       (("互动建议").data, .str (("E").data)), (("insight").data, .str (("F").data))] (("core").data)))) ∧
    (normalizeItemForFrontend (.obj
      [(("核心金句").data, .str (("A").data)), (("core").data, .str (("B").data)),
       (("逻辑拆解").data, .str (("C").data)), (("logic").data, .str (("D").data)),
       (("互动建议").data, .str (("E").data)), (("insight").data, .str (("F").data))])
      = normalizeItemForFrontend (.obj (eraseField
      [(("核心金句").data, .str (("A").data)), (("core").data, .str (("B").data)),
       (("逻辑拆解").data, .str (("C").data)), (("logic").data, .str (("D").data)),
       (("互动建议").data, .str (("E").data)), (("insight").data, .str (("F").data))] (("logic").data)))) ∧
    (normalizeItemForFrontend (.obj
      [(("核心金句").data, .str (("A").data)), (("core").data, .str (("B").data)),
       (("逻辑拆解").data, .str (("C").data)), (("logic").data, .str (("D").data)),
       (("互动建议").data, .str (("E").data)), (("insight").data, .str (("F").data))])
      = normalizeItemForFrontend (.obj (eraseField
      [(("核心金句").data, .str (("A").data)), (("core").data, .str (("B").data)),
       (("逻辑拆解").data, .str (("C").data)), (("logic").data, .str (("D").data)),
       (("互动建议").data, .str (("E").data)), (("insight").data, .str (("F").data))] (("insight").data)))) ∧
    normalizeItemForFrontend (.obj
      [(("核心金句").data, .str (("A").data)), (("core").data, .str (("B").data)),
       (("逻辑拆解").data, .str (("C").data)), (("logic").data, .str (("D").data)),
       (("互动建议").data, .str (("E").data)), (("insight").data, .str (("F").data))]) = ⟨("A\nC\nE").data⟩ := by
  obtain ⟨h1, h2, h3⟩ := normalizeItem_native_key_precedence
    [(("核心金句").data, .str (("A").data)), (("core").data, .str (("B").data)),
       (("逻辑拆解").data, .str (("C").data)), (("logic").data, .str (("D").data)),
       (("互动建议").data, .str (("E").data)), (("insight").data, .str (("F").data))] (by decide)
  exact ⟨h1 (by decide), h2 (by decide), h3 (by decide), by decide⟩

/-! Claim theorems for the Structured Response Parser. -/

/-- C1: whenever the trimmed, fence-stripped input decodes as a JSON
object whose `items` field is a non-empty array, the parser's `outline`
is the Outline Renderer applied to those raw, pre-normalization items
(so any `outline` string field in the same object has no effect), and
the raw items are returned. -/
theorem parseAIResponse_items_override (s : JStr) (fields : List (JStr × JsValue))
    (xs : List JsValue)
    (hparse : jsonParse (jsonCandidate s) = some (.obj fields))
    (hitems : getField (.obj fields) (("items").data) = .arr xs)
    (hne : xs ≠ []) :
    (parseAIResponse s).outline = itemsToOutline (.arr xs) ∧
    (parseAIResponse s).items = JsValue.arr xs := by
  have hlen : 0 < xs.length := List.length_pos.mpr hne
  have hitems2 : jsonItems (.obj fields) = JsValue.arr xs := by
    simp [jsonItems, truthy, hitems, hlen]
  have houtline : jsonOutline (.obj fields) = itemsToOutline (.arr xs) := by
    simp [jsonOutline, truthy, hitems, hlen]
  simp only [parseAIResponse, hparse]
  rw [if_pos (Or.inr (Or.inr (by simp [hitems2, truthy])))]
  simp [houtline, hitems2]

/-- C1 witness: a fenced-free object carrying both `items` and an
`outline` string; the rendered items win. -/
theorem parseAIResponse_items_override_witness :
    (parseAIResponse (("\x7b\"items\":[\"a\"],\"outline\":\"X\"\x7d").data)).outline
      = itemsToOutline (.arr [.str (("a").data)]) ∧
    (parseAIResponse (("\x7b\"items\":[\"a\"],\"outline\":\"X\"\x7d").data)).items
      = JsValue.arr [.str (("a").data)] :=
  parseAIResponse_items_override _
    [((("items").data), .arr [.str (("a").data)]), ((("outline").data), .str (("X").data))]
    [.str (("a").data)] (by rfl) (by rfl) (by simp)

/-- C2 counterexample: on the fallback path the `items` slot of the
returned record holds the source's `null` (server.js line 165 writes
`items: null`), which is a different JavaScript value from the
`undefined` the claim asserts. -/
theorem parseAIResponse_items_null_counterexample :
    (parseAIResponse (("no structure at all").data)).items = JsValue.null ∧
    JsValue.null ≠ JsValue.undefinedV :=
  ⟨rfl, fun h => JsValue.noConfusion h⟩

/-- C2 amended: on JSON-decode failure, or when the decoded value
yields an empty `outline`, an empty `opening` and null `items`, the
parser returns exactly the Marker-Based Section Splitter of the
ORIGINAL trimmed raw text (not the fence-stripped text), with
`items = null` — the source's JavaScript `null`, not `undefined` — and
`visualCode = null`.  The parser is a total function, so no input
raises. -/
theorem parseAIResponse_fallback (s : JStr)
    (h : jsonParse (jsonCandidate s) = none ∨
      ∃ v, jsonParse (jsonCandidate s) = some v ∧
        jsonOutline v = [] ∧ jsonOpening v = [] ∧ jsonItems v = .null) :
    parseAIResponse s =
      ⟨(parseClaudeResponse (jsTrim s)).outline,
       (parseClaudeResponse (jsTrim s)).opening, .null, .null⟩ := by
  rcases h with h | ⟨v, hv, h1, h2, h3⟩
  · simp [parseAIResponse, h, fallbackResponse]
  · simp [parseAIResponse, hv, h1, h2, h3, fallbackResponse, truthy]

/-- C2 amended witness: free text is not JSON, so the fallback record
with null items and null visualCode is returned. -/
theorem parseAIResponse_fallback_witness :
    parseAIResponse (("no structure here").data)
      = ⟨(parseClaudeResponse (jsTrim (("no structure here").data))).outline,
         (parseClaudeResponse (jsTrim (("no structure here").data))).opening,
         .null, .null⟩ :=
  parseAIResponse_fallback _ (Or.inl (by rfl))

/-- C3 counterexample: with both `opening` and `summary` present as
strings, the parser returns the SUMMARY field's value, not the
`opening` field's: here the result is `"B"` where the claim demands the
`opening` value `"A"`. -/
theorem parseAIResponse_opening_counterexample :
    (parseAIResponse (("\x7b\"opening\":\"A\",\"summary\":\"B\"\x7d").data)).opening
        = ("B").data ∧
    ("B").data ≠ ("A").data := ⟨by rfl, by decide⟩

/-- C3 amended: the priority order is `summary` first, then `opening`:
whenever the decoded object carries a non-empty string `summary`, the
returned `opening` is that summary value, regardless of any `opening`
field (which is consulted only when `summary` is absent or not a
string). -/
theorem parseAIResponse_opening_from_summary (s : JStr)
    (fields : List (JStr × JsValue)) (a b : JStr)
    (hparse : jsonParse (jsonCandidate s) = some (.obj fields))
    (hsum : getField (.obj fields) (("summary").data) = .str b)
    (hopen : getField (.obj fields) (("opening").data) = .str a)
    (hb : b ≠ []) :
    (parseAIResponse s).opening = b := by
  have hopening : jsonOpening (.obj fields) = b := by
    simp [jsonOpening, truthy, hsum]
  simp only [parseAIResponse, hparse]
  rw [if_pos (Or.inr (Or.inl (by simp [hopening, hb])))]
  simp [hopening]

/-- C3 amended witness: both fields present as strings; the summary
value `"D"` is returned. -/
theorem parseAIResponse_opening_from_summary_witness :
    (parseAIResponse (("\x7b\"opening\":\"C\",\"summary\":\"D\"\x7d").data)).opening
      = ("D").data :=
  parseAIResponse_opening_from_summary _
    [((("opening").data), .str (("C").data)), ((("summary").data), .str (("D").data))]
    (("C").data) (("D").data) (by rfl) (by rfl) (by rfl) (by decide)

/-! Fence-stripping lemmas for the Structured Response Parser. -/

theorem dropWhile_append_of_all {p : Char → Bool} {ws r : JStr}
    (h : ∀ c ∈ ws, p c = true) : (ws ++ r).dropWhile p = r.dropWhile p := by
  induction ws with
  | nil => rfl
  | cons c t ih =>
    rw [List.cons_append, List.dropWhile_cons, h c (by simp)]
    exact ih (fun c2 hc2 => h c2 (by simp [hc2]))

theorem dropWhile_append_of_ne {p : Char → Bool} {K R : JStr}
    (h : K.dropWhile p ≠ []) : (K ++ R).dropWhile p = K.dropWhile p ++ R := by
  induction K with
  | nil => exact absurd rfl h
  | cons c t ih =>
    by_cases hc : p c
    · rw [List.dropWhile_cons, if_pos hc] at h
      rw [List.cons_append, List.dropWhile_cons, if_pos hc, List.dropWhile_cons,
        if_pos hc]
      exact ih h
    · rw [List.cons_append, List.dropWhile_cons, if_neg hc, List.dropWhile_cons,
        if_neg hc, List.cons_append]

theorem dropWhile_ne_nil_of_mem {p : Char → Bool} {K : JStr} {c0 : Char}
    (hm : c0 ∈ K) (hp : p c0 = false) : K.dropWhile p ≠ [] := by
  intro hnil
  have := List.dropWhile_eq_nil_iff.mp hnil c0 hm
  rw [hp] at this
  cases this

theorem dropWhile_sub_suffix {p : Char → Bool} (K : JStr) :
    ∃ pre, K = pre ++ K.dropWhile p := by
  induction K with
  | nil => exact ⟨[], rfl⟩
  | cons c t ih =>
    by_cases hc : p c
    · obtain ⟨pre, hpre⟩ := ih
      refine ⟨c :: pre, ?_⟩
      rw [List.dropWhile_cons, if_pos hc, List.cons_append]
      exact congrArg (c :: ·) hpre
    · refine ⟨[], ?_⟩
      rw [List.dropWhile_cons, if_neg hc, List.nil_append]

theorem getLast?_dropWhile_of_ne {p : Char → Bool} {K : JStr}
    (h : K.dropWhile p ≠ []) : (K.dropWhile p).getLast? = K.getLast? := by
  obtain ⟨pre, hpre⟩ := dropWhile_sub_suffix (p := p) K
  obtain ⟨d, hd⟩ := Option.isSome_iff_exists.mp (List.getLast?_isSome.mpr h)
  conv_rhs => rw [hpre]
  rw [List.getLast?_append, hd, Option.or_some]

theorem drop_brace_list {M : JStr} {j : Nat} (hj : j < (lbrace :: M ++ [rbrace]).length) :
    (lbrace :: M ++ [rbrace]).drop j = (lbrace :: M).drop j ++ [rbrace] := by
  have hcons : lbrace :: M ++ [rbrace] = (lbrace :: M) ++ [rbrace] := rfl
  rw [hcons, List.drop_append_eq_append_drop,
    Nat.sub_eq_zero_of_le (by simp at hj ⊢; omega), List.drop_zero]

theorem rbrace_mem_drop {M : JStr} {j : Nat} (hj : j < (lbrace :: M ++ [rbrace]).length) :
    rbrace ∈ (lbrace :: M ++ [rbrace]).drop j := by
  rw [drop_brace_list hj]
  simp

theorem stripTrailFence_of_wrapped (M ws2 : JStr)
    (hws2 : ∀ c ∈ ws2, jsWsChar c = true) :
    stripTrailFence ((lbrace :: M ++ [rbrace]) ++ (ws2 ++ ("```").data))
      = lbrace :: M ++ [rbrace] := by
  have hsome : leastSuffix (fun t => t.dropWhile jsWsChar == ("```").data)
      ((lbrace :: M ++ [rbrace]) ++ (ws2 ++ ("```").data))
        = some (lbrace :: M ++ [rbrace]).length := by
    apply leastSuffix_eq_some_of
    · rw [List.drop_left, dropWhile_append_of_all hws2]
      decide
    · have hlen : ((lbrace :: M ++ [rbrace]) ++ (ws2 ++ ("```").data)).length
          = (lbrace :: M ++ [rbrace]).length + (ws2 ++ ("```").data).length :=
        List.length_append _ _
      omega
    · intro j hj
      have hdrop : ((lbrace :: M ++ [rbrace]) ++ (ws2 ++ ("```").data)).drop j
          = (lbrace :: M ++ [rbrace]).drop j ++ (ws2 ++ ("```").data) := by
        rw [List.drop_append_eq_append_drop, Nat.sub_eq_zero_of_le (by omega),
          List.drop_zero]
      rw [hdrop]
      have hK : ((lbrace :: M ++ [rbrace]).drop j).dropWhile jsWsChar ≠ [] :=
        dropWhile_ne_nil_of_mem (rbrace_mem_drop hj) (by decide)
      rw [dropWhile_append_of_ne hK]
      apply Bool.eq_false_iff.mpr
      intro hcon
      have heq : ((lbrace :: M ++ [rbrace]).drop j).dropWhile jsWsChar
          ++ (ws2 ++ ("```").data) = ("```").data := by
        exact beq_iff_eq.mp hcon
      have hlenK : 0 < (((lbrace :: M ++ [rbrace]).drop j).dropWhile jsWsChar).length :=
        List.length_pos.mpr hK
      have := congrArg List.length heq
      simp only [List.length_append] at this
      omega
  unfold stripTrailFence
  rw [hsome]
  exact List.take_left _ _

theorem stripTrailFence_of_object (M : JStr) :
    stripTrailFence (lbrace :: M ++ [rbrace]) = lbrace :: M ++ [rbrace] := by
  have hnone : leastSuffix (fun t => t.dropWhile jsWsChar == ("```").data)
      (lbrace :: M ++ [rbrace]) = none := by
    rw [leastSuffix_eq_none_iff]
    intro j
    by_cases hj : j < (lbrace :: M ++ [rbrace]).length
    · have hK : ((lbrace :: M ++ [rbrace]).drop j).dropWhile jsWsChar ≠ [] :=
        dropWhile_ne_nil_of_mem (rbrace_mem_drop hj) (by decide)
      apply Bool.eq_false_iff.mpr
      intro hcon
      have heq : ((lbrace :: M ++ [rbrace]).drop j).dropWhile jsWsChar
          = ("```").data := beq_iff_eq.mp hcon
      have hlast := getLast?_dropWhile_of_ne hK
      rw [heq, drop_brace_list hj, List.getLast?_concat] at hlast
      exact absurd hlast (by decide)
    · rw [List.drop_eq_nil_of_le (by omega)]
      decide
  unfold stripTrailFence
  rw [hnone]

theorem jsWsChar_toLower_ne_j {c : Char} (h : jsWsChar c = true) :
    Char.toLower c ≠ 'j' := by
  simp only [jsWsChar, Bool.or_eq_true, beq_iff_eq, Bool.and_eq_true,
    decide_eq_true_eq] at h
  have hfacts : ¬ (c.toNat ≥ 65 ∧ c.toNat ≤ 90) ∧ c.toNat ≠ 106 := by
    rcases h with
      ((((((((((((((h | h) | h) | h) | h) | h) | h) | h) | h) | h) | h) | h) | h) | h) | h)
    all_goals first
      | (subst h; decide)
      | omega
  simp only [Char.toLower, if_neg hfacts.1]
  intro he
  have : c.toNat = 106 := by rw [he]; rfl
  exact hfacts.2 this

theorem take4_map_toLower_head {X : JStr}
    (h : (X.take 4).map Char.toLower = ("json").data) :
    ∃ c t, X = c :: t ∧ Char.toLower c = 'j' := by
  cases X with
  | nil => simp at h
  | cons c t =>
    refine ⟨c, t, rfl, ?_⟩
    rw [List.take_succ_cons, List.map_cons] at h
    exact (List.cons.injEq _ _ _ _).mp h |>.1

theorem stripLeadFence_of_wrapped (tag ws1 R : JStr)
    (htag : tag = [] ∨ tag.map Char.toLower = ("json").data)
    (hws1 : ∀ c ∈ ws1, jsWsChar c = true)
    (hR : R.head? = some lbrace) :
    stripLeadFence (("```").data ++ (tag ++ (ws1 ++ R))) = R := by
  have hdropR : R.dropWhile jsWsChar = R := by
    cases R with
    | nil => rfl
    | cons c t =>
      have hc : c = lbrace := by simpa using hR
      subst hc
      rw [List.dropWhile_cons, show jsWsChar lbrace = false from by decide]
      simp
  simp only [stripLeadFence]
  rw [if_pos (List.isPrefixOf_iff_prefix.mpr (List.prefix_append _ _))]
  rw [List.drop_left' (by decide : (("```").data).length = 3)]
  rcases htag with rfl | htag
  · rw [List.nil_append]
    rw [if_neg ?hcond]
    · rw [dropWhile_append_of_all hws1, hdropR]
    case hcond =>
      intro hcon
      obtain ⟨c, t, hct, hc⟩ := take4_map_toLower_head hcon
      cases ws1 with
      | nil =>
        rw [List.nil_append] at hct
        rw [hct] at hR
        have : c = lbrace := by simpa using hR
        rw [this] at hc
        exact absurd hc (by decide)
      | cons w ws =>
        rw [List.cons_append] at hct
        have hw : w = c := (List.cons.injEq _ _ _ _).mp hct |>.1
        rw [← hw] at hc
        exact jsWsChar_toLower_ne_j (hws1 w (by simp)) hc
  · have hlen : tag.length = 4 := by
      have := congrArg List.length htag
      simpa using this
    rw [if_pos (by rw [List.take_left' hlen]; exact htag)]
    rw [List.drop_left' hlen, dropWhile_append_of_all hws1, hdropR]

/-- C8: a JSON object text wrapped in a triple-backtick code fence, with
or without a `json` language tag in any letter case, is fence-stripped
exactly: the string handed to the JSON decoder equals the bare object
text, which the preprocessing also leaves untouched — so the fenced
input is decoded exactly as its unfenced equivalent. -/
theorem jsonCandidate_strips_fence (tag ws1 ws2 M : JStr)
    (htag : tag = [] ∨ tag.map Char.toLower = ("json").data)
    (hws1 : ∀ c ∈ ws1, jsWsChar c = true)
    (hws2 : ∀ c ∈ ws2, jsWsChar c = true) :
    jsonCandidate (("```").data ++ tag ++ ws1 ++ (lbrace :: M ++ [rbrace])
        ++ ws2 ++ ("```").data)
      = lbrace :: M ++ [rbrace] ∧
    jsonCandidate (lbrace :: M ++ [rbrace]) = lbrace :: M ++ [rbrace] := by
  have hJhead : (lbrace :: M ++ [rbrace]).head? = some lbrace := rfl
  have hJlast : (lbrace :: M ++ [rbrace]).getLast? = some rbrace := by
    rw [show lbrace :: M ++ [rbrace] = (lbrace :: M) ++ [rbrace] from rfl,
      List.getLast?_concat]
  have htrimJ : jsTrim (lbrace :: M ++ [rbrace]) = lbrace :: M ++ [rbrace] := by
    apply jsTrim_eq_self_of
    · intro c hc
      rw [hJhead] at hc
      cases hc
      decide
    · intro c hc
      rw [hJlast] at hc
      cases hc
      decide
  constructor
  · have hgroup : ("```").data ++ tag ++ ws1 ++ (lbrace :: M ++ [rbrace])
        ++ ws2 ++ ("```").data
      = ("```").data ++ (tag ++ (ws1 ++ ((lbrace :: M ++ [rbrace])
          ++ (ws2 ++ ("```").data)))) := by
      simp [List.append_assoc]
    have hhead : (("```").data ++ (tag ++ (ws1 ++ ((lbrace :: M ++ [rbrace])
        ++ (ws2 ++ ("```").data))))).head? = some '`' := by
      rw [List.head?_append]
      rfl
    have hlast : (("```").data ++ (tag ++ (ws1 ++ ((lbrace :: M ++ [rbrace])
        ++ (ws2 ++ ("```").data))))).getLast? = some '`' := by
      simp only [List.getLast?_append]
      rw [show (("```").data).getLast? = some '`' from rfl]
      simp only [Option.or_some]
    have hW1 : ∀ c, (("```").data ++ (tag ++ (ws1 ++ ((lbrace :: M ++ [rbrace])
        ++ (ws2 ++ ("```").data))))).head? = some c → jsWsChar c = false := by
      intro c hc
      rw [hhead] at hc
      cases hc
      decide
    have hW2 : ∀ c, (("```").data ++ (tag ++ (ws1 ++ ((lbrace :: M ++ [rbrace])
        ++ (ws2 ++ ("```").data))))).getLast? = some c → jsWsChar c = false := by
      intro c hc
      rw [hlast] at hc
      cases hc
      decide
    have htrimW := jsTrim_eq_self_of hW1 hW2
    simp only [jsonCandidate]
    rw [hgroup, htrimW,
      stripLeadFence_of_wrapped tag ws1 _ htag hws1 (by
        rw [List.head?_append, hJhead]
        rfl),
      stripTrailFence_of_wrapped M ws2 hws2]
    exact htrimJ
  · have hnopre : (("```").data).isPrefixOf (lbrace :: M ++ [rbrace]) = false := rfl
    simp only [jsonCandidate]
    rw [htrimJ]
    rw [show stripLeadFence (lbrace :: M ++ [rbrace]) = lbrace :: M ++ [rbrace] from by
      simp only [stripLeadFence, hnopre]
      simp]
    rw [stripTrailFence_of_object M]
    exact htrimJ

/-- C8 witness: a fenced object with an upper-case tag and newline
padding strips to the bare object text. -/
theorem jsonCandidate_strips_fence_witness :
    jsonCandidate (("```").data ++ ("JSON").data ++ ("\n").data
        ++ (lbrace :: ("\"a\":1").data ++ [rbrace]) ++ ("\n").data ++ ("```").data)
      = lbrace :: ("\"a\":1").data ++ [rbrace] ∧
    jsonCandidate (lbrace :: ("\"a\":1").data ++ [rbrace])
      = lbrace :: ("\"a\":1").data ++ [rbrace] :=
  jsonCandidate_strips_fence (("JSON").data) (("\n").data) (("\n").data)
    (("\"a\":1").data) (Or.inr (by decide)) (by decide) (by decide)
